import Mathlib

/-!
Verification of the tabular transform engine of the dashboard export
extension (source: `src/app.js`).  The engine is shallowly embedded:

* JavaScript runtime values that can sit in a result-set cell are the
  inductive `JSVal`.  JS numbers are modelled as exact rationals `ℚ`;
  IEEE-754 rounding, `NaN` and `Infinity` are outside the model (the
  parse-failure `NaN` of `parseFloat` is modelled as `Option.none`).
  `undefined` and `null` are separate constructors.  A host `Date`
  object is opaque: the model records the three observations the code makes
  of it (`getTime`, `getMonth`, `getFullYear`).
* Host-environment functions the code calls but that are not part of
  the repository (`String(number)`, `Date.parse`,
  `new Date(y, m, 1).getTime()`, `String(dateObject)`) are collected in
  a `JSEnv` parameter; theorems quantify over the environment, and the
  executable `envModel` instantiates it for concrete evaluation.
-/

/-- Model of a JavaScript runtime value as stored in a result-set cell
or produced by the transform engine. -/
inductive JSVal where
  | null : JSVal
  | undef : JSVal
  | bool : Bool → JSVal
  | num : ℚ → JSVal
  | str : String → JSVal
  | date : ℤ → ℕ → ℤ → JSVal
deriving DecidableEq, Repr

/-- Host-environment functions used by the code but implemented by the
JavaScript runtime, not by the repository. -/
structure JSEnv where
  numToString : ℚ → String
  dateToString : ℤ → ℕ → ℤ → String
  dateParse : String → Option ℤ
  dateCtorTime : ℤ → ℕ → ℤ

/-- Truthiness of a JS value (`Boolean(v)` is false).  `NaN` is outside
the model; `0`, `""`, `null`, `undefined`, `false` are falsy. -/
def jsFalsy : JSVal → Bool
  | JSVal.null => true
  | JSVal.undef => true
  | JSVal.bool b => !b
  | JSVal.num q => q = 0
  | JSVal.str s => s = ""
  | JSVal.date _ _ _ => false

/-- The idiom `v || ''` used throughout the source: a falsy value is
replaced by the empty string. -/
def jsOrEmpty (v : JSVal) : JSVal :=
  if jsFalsy v then JSVal.str "" else v

/-- Coercion `String(v)` of the JS runtime. -/
def jsToStr (env : JSEnv) : JSVal → String
  | JSVal.null => "null"
  | JSVal.undef => "undefined"
  | JSVal.bool b => if b then "true" else "false"
  | JSVal.num q => env.numToString q
  | JSVal.str s => s
  | JSVal.date t m y => env.dateToString t m y

/-- Element stringification of `Array.prototype.join`: identical to
`String(v)` except that `null` and `undefined` become `""`. -/
def joinElemStr (env : JSEnv) : JSVal → String
  | JSVal.null => ""
  | JSVal.undef => ""
  | v => jsToStr env v

/-- Model of `String.prototype.trim` (and of regex `\s`): strip
whitespace from both ends, with `Char.isWhitespace` standing for the
JS whitespace class. -/
def jsTrim (s : String) : String :=
  ⟨((s.data.dropWhile Char.isWhitespace).reverse.dropWhile Char.isWhitespace).reverse⟩

/-- Model of `String.prototype.toLowerCase` (character-wise). -/
def lowerStr (s : String) : String :=
  ⟨s.data.map Char.toLower⟩

/-- Numeric value of a run of decimal digits. -/
def digitsNat (cs : List Char) : ℕ :=
  cs.foldl (fun acc c => acc * 10 + (c.toNat - '0'.toNat)) 0

/-- Model of JS `parseFloat` on a string: skip leading whitespace, an
optional sign, then the longest prefix `digits [. digits] [e[±]digits]`;
`none` models the `NaN` result when no digit is found.  The `Infinity`
literal and IEEE rounding are outside the model. -/
def parseFloat (s : String) : Option ℚ :=
  let cs := s.data.dropWhile Char.isWhitespace
  let signed : Bool × List Char :=
    match cs with
    | '-' :: t => (true, t)
    | '+' :: t => (false, t)
    | _ => (false, cs)
  let d1 := signed.2.takeWhile Char.isDigit
  let r1 := signed.2.dropWhile Char.isDigit
  let fractional : List Char × List Char :=
    match r1 with
    | '.' :: t => (t.takeWhile Char.isDigit, t.dropWhile Char.isDigit)
    | _ => ([], r1)
  let d2 := fractional.1
  if d1 = [] ∧ d2 = [] then none
  else
    let mant : ℚ := (digitsNat d1 : ℚ) + (digitsNat d2 : ℚ) / (10 ^ d2.length : ℚ)
    let mant := if signed.1 then -mant else mant
    let expPart : ℤ :=
      match fractional.2 with
      | 'e' :: t => match t with
        | '-' :: t2 => if t2.takeWhile Char.isDigit = [] then 0
            else -(digitsNat (t2.takeWhile Char.isDigit) : ℤ)
        | '+' :: t2 => if t2.takeWhile Char.isDigit = [] then 0
            else (digitsNat (t2.takeWhile Char.isDigit) : ℤ)
        | _ => if t.takeWhile Char.isDigit = [] then 0
            else (digitsNat (t.takeWhile Char.isDigit) : ℤ)
      | 'E' :: t => match t with
        | '-' :: t2 => if t2.takeWhile Char.isDigit = [] then 0
            else -(digitsNat (t2.takeWhile Char.isDigit) : ℤ)
        | '+' :: t2 => if t2.takeWhile Char.isDigit = [] then 0
            else (digitsNat (t2.takeWhile Char.isDigit) : ℤ)
        | _ => if t.takeWhile Char.isDigit = [] then 0
            else (digitsNat (t.takeWhile Char.isDigit) : ℤ)
      | _ => 0
    some (mant * (10 : ℚ) ^ expPart)

/-- Model of `parseFloat(v)` on an arbitrary JS value: non-strings are
first coerced with `String(v)`; the coercions of `null`, `undefined`,
booleans and `Date` objects never start with a digit, sign or dot, so
they parse to `NaN` (`none`).  A number is already numeric (callers
guard with `typeof v === 'number'` before calling, so that branch is
unreachable in the embedded code paths). -/
def parseFloatVal : JSVal → Option ℚ
  | JSVal.str s => parseFloat s
  | JSVal.num q => some q
  | _ => none

/-- A result-set cell as delivered by the host API: native value plus
host-formatted display string. -/
structure Cell where
  value : JSVal
  formattedValue : JSVal
deriving DecidableEq, Repr

/-- A result-set column: field name and declared scalar type (a free
string such as `"int"`, `"float"`, `"string"`, `"date"`). -/
structure Column where
  fieldName : String
  dataType : String
deriving DecidableEq, Repr

/-- A result-set row, positionally aligned with the column list. -/
abbrev Row := List Cell

/-- A freshly fetched result set. -/
structure DataTable where
  columns : List Column
  data : List Row

/-- Whether `pat` occurs at the start of `l`. -/
def charsStartWith : List Char → List Char → Bool
  | [], _ => true
  | _ :: _, [] => false
  | p :: ps, c :: cs => p = c && charsStartWith ps cs

/-- Model of `String.prototype.includes`: `pat` occurs contiguously
somewhere in `l`. -/
def charsContain (pat : List Char) : List Char → Bool
  | [] => charsStartWith pat []
  | c :: cs => charsStartWith pat (c :: cs) || charsContain pat cs

/-- Classifier used when scanning *all* worksheet columns
(`filterColumns` lines 1296-1303): a column is a measure when its
lower-cased type contains `int`, `float` or `real`, or equals
`number`. -/
def isMeasureDataTypeAll (dataType : String) : Bool :=
  let d := lowerStr dataType
  charsContain "int".data d.data || charsContain "float".data d.data ||
    charsContain "real".data d.data || d = "number"

/-- Classifier used on the *selected* columns in the aggregation path
(`filterColumns` lines 1396-1400): the `number` alternative is absent
there. -/
def isMeasureSelType (dataType : String) : Bool :=
  let d := lowerStr dataType
  charsContain "int".data d.data || charsContain "float".data d.data ||
    charsContain "real".data d.data

/-- Indices of all measure columns of the worksheet (`measureIndicesAll`
in the source). -/
def measureIndicesAll (dt : DataTable) : List ℕ :=
  (dt.columns.enum.filter fun p => isMeasureDataTypeAll p.2.dataType).map Prod.fst

/-- Indices of all dimension columns of the worksheet
(`dimensionIndicesAll` in the source). -/
def dimensionIndicesAll (dt : DataTable) : List ℕ :=
  (dt.columns.enum.filter fun p => !isMeasureDataTypeAll p.2.dataType).map Prod.fst

/-- The dimension display value of one cell as read by `shouldSkipRow`:
`(cell && (cell.formattedValue ?? cell.value)) || ''`. -/
def dimVal (oc : Option Cell) : JSVal :=
  match oc with
  | none => JSVal.str ""
  | some c =>
      jsOrEmpty (if c.formattedValue = JSVal.null ∨ c.formattedValue = JSVal.undef
        then c.value else c.formattedValue)

/-- Display values of every dimension column of the row (`dimValsAll`
in the source). -/
def dimValsAll (dt : DataTable) (row : Row) : List JSVal :=
  (dimensionIndicesAll dt).map fun di => dimVal (row.get? di)

/-- Predicate `isNullish` of the source: blank, whitespace-only,
`null`, `(null)` or `(blank)` (case-insensitively), after the `v || ''`
fold and `String(...)` coercion. -/
def isNullish (env : JSEnv) (v : JSVal) : Bool :=
  let t := jsTrim (jsToStr env (jsOrEmpty v))
  t = "" || lowerStr t = "null" || lowerStr t = "(null)" || lowerStr t = "(blank)"

/-- Predicate `isTotalLabel` of the source: the trimmed value equals
`total` or `grand total` case-insensitively. -/
def isTotalLabel (env : JSEnv) (v : JSVal) : Bool :=
  let t := jsTrim (jsToStr env (jsOrEmpty v))
  lowerStr t = "total" || lowerStr t = "grand total"

/-- A value that counts as empty in the measure scan of
`shouldSkipRow` (`v === null || v === undefined || v === ''`). -/
def blankVal : JSVal → Bool
  | JSVal.null => true
  | JSVal.undef => true
  | JSVal.str s => s = ""
  | _ => false

/-- Whether the row has at least one measure cell with a non-empty raw
or formatted value (`hasMeasureValue` in the source); an empty measure
column set counts as `true` there. -/
def hasMeasureValue (dt : DataTable) (row : Row) : Bool :=
  let ms := measureIndicesAll dt
  if ms.isEmpty then true
  else ms.any fun mi =>
    match row.get? mi with
    | none => false
    | some c => !blankVal c.value || !blankVal c.formattedValue

/-- Row-suppression heuristic `shouldSkipRow` of the source, including
the unreachable final mixed-subtotal branch.  The `!rowData` guard of
the source only concerns an undefined row and is outside the model
(rows exist by construction). -/
def shouldSkipRow (env : JSEnv) (dt : DataTable) (includeNulls : Bool) (row : Row) : Bool :=
  let dims := dimValsAll dt row
  if !hasMeasureValue dt row then false
  else if dims.any (isTotalLabel env) then true
  else if includeNulls then false
  else if dims.any (isNullish env) then true
  else if dims.any (isNullish env) && dims.any (fun v => !isNullish env v) then true
  else false

/-- Rows of the table surviving the suppression heuristic; this depends
only on the table (all of its columns), never on the user's column
selection. -/
def survivingRows (env : JSEnv) (dt : DataTable) (includeNulls : Bool) : List Row :=
  dt.data.filter fun r => !shouldSkipRow env dt includeNulls r

/-- Test for the regex `^[A-Za-z]{3}-\d{4}$` (`shortDatePattern`). -/
def shortDateMatch (s : String) : Bool :=
  match s.data with
  | [a, b, c, h, d1, d2, d3, d4] =>
      a.isAlpha && b.isAlpha && c.isAlpha && h = '-' &&
      d1.isDigit && d2.isDigit && d3.isDigit && d4.isDigit
  | _ => false

/-- Matcher for the regex `^[A-Za-z]+ \d{4}$` (`monthYearPattern`),
returning the month word and the year digits, which are exactly the
`split(' ')` parts the source uses afterwards. -/
def monthYearMatch (s : String) : Option (String × String) :=
  let al := s.data.takeWhile Char.isAlpha
  let rest := s.data.drop al.length
  match rest with
  | ' ' :: ds =>
      if al ≠ [] ∧ ds.length = 4 ∧ ds.all Char.isDigit then some (⟨al⟩, ⟨ds⟩) else none
  | _ => none

/-- The `monthMap` object literal of `formatValue`. -/
def monthMapFull : String → Option String
  | "January" => some "Jan"
  | "February" => some "Feb"
  | "March" => some "Mar"
  | "April" => some "Apr"
  | "May" => some "May"
  | "June" => some "Jun"
  | "July" => some "Jul"
  | "August" => some "Aug"
  | "September" => some "Sep"
  | "October" => some "Oct"
  | "November" => some "Nov"
  | "December" => some "Dec"
  | _ => none

/-- The `monthNames` array of `formatValue`. -/
def monthNames : List String :=
  ["Jan", "Feb", "Mar", "Apr", "May", "Jun", "Jul", "Aug", "Sep", "Oct", "Nov", "Dec"]

/-- The value formatter `formatValue` of the source.  `exportType` is
`none` for the JS `undefined`; regex tests coerce a non-string
`formattedValue` with `String(...)`, hence the environment argument.
An out-of-range `getMonth` index would render as `undefined`, exactly
as a JS template literal would. -/
def formatValue (env : JSEnv) (value formattedValue : JSVal) (exportType : Option String) : JSVal :=
  match exportType with
  | none => formattedValue
  | some t =>
    if t = "" then formattedValue
    else if t = "text" then formattedValue
    else if t = "number" then
      match value with
      | JSVal.num q => JSVal.num q
      | v =>
        match parseFloatVal v with
        | some q => JSVal.num q
        | none => formattedValue
    else if t = "date" ∨ t = "date-full" then
      let fvs := jsToStr env formattedValue
      if t = "date" ∧ shortDateMatch fvs then formattedValue
      else
        match (if t = "date" then monthYearMatch fvs else none) with
        | some (mon, yr) =>
            let shortMonth := (monthMapFull mon).getD ⟨mon.data.take 3⟩
            JSVal.str (shortMonth ++ "-" ++ yr)
        | none =>
          match t, value with
          | "date", JSVal.date _ m y =>
              JSVal.str ((monthNames.getD m "undefined") ++ "-" ++ toString y)
          | _, _ => formattedValue
    else formattedValue

/-- Numeric coercion of a measure cell during aggregation:
`typeof value === 'number' ? value : parseFloat(value) || 0`. -/
def measureNum (v : JSVal) : ℚ :=
  match v with
  | JSVal.num q => q
  | v => (parseFloatVal v).getD 0

/-- One aggregation group (`{dimensions, measures, count}`). -/
structure AggGroup where
  dimensions : List JSVal
  measures : List ℚ
  count : ℕ
deriving Repr

/-- Model of `Map.prototype.set` preceded by the `if (!map.has(key))`
initialisation of the source: a fresh key is appended at the end
(JS `Map` iterates in insertion order), an existing key is updated in
place. -/
def upsert (acc : List (String × AggGroup)) (key : String) (g0 : AggGroup)
    (f : AggGroup → AggGroup) : List (String × AggGroup) :=
  match acc with
  | [] => [(key, f g0)]
  | (k, g) :: t => if k = key then (k, f g) :: t else (k, g) :: upsert t key g0 f

/-- Key formation `values.join('|||')` of the source. -/
def joinKey (env : JSEnv) (vals : List JSVal) : String :=
  String.intercalate "|||" (vals.map (joinElemStr env))

/-- Cell access `row[i]`.  The source would throw on a missing cell
(`.value` of `undefined`); rows are assumed to span the referenced
columns, and the model totalises with an undefined-valued cell. -/
def cellAt (r : Row) (i : ℕ) : Cell :=
  (r.get? i).getD ⟨JSVal.undef, JSVal.undef⟩

/-- Per-selected-column classification of the aggregation path
(`columnTypes` in the source, `isDimension` flag). -/
def selColumnTypes (dt : DataTable) (sel : List ℕ) : List (ℕ × Bool) :=
  sel.map fun ci => (ci, !isMeasureSelType ((dt.columns.getD ci ⟨"", ""⟩).dataType))

/-- The `dimensionIndices` of the aggregation path (selected columns
classified as dimensions, in selection order). -/
def selDimensionIndices (dt : DataTable) (sel : List ℕ) : List ℕ :=
  ((selColumnTypes dt sel).filter fun p => p.2).map Prod.fst

/-- The `measureIndices` of the aggregation path. -/
def selMeasureIndices (dt : DataTable) (sel : List ℕ) : List ℕ :=
  ((selColumnTypes dt sel).filter fun p => !p.2).map Prod.fst

/-- The grouping key of a source row: dimension display values joined
with the literal separator `|||`. -/
def rowDimKey (env : JSEnv) (dims : List ℕ) (r : Row) : String :=
  joinKey env (dims.map fun di => (cellAt r di).formattedValue)

/-- One iteration of the grouping loop of `filterColumns`: build the
key, initialise the group if absent, then add each measure cell's
numeric value into the group accumulators. -/
def aggStep (env : JSEnv) (dims meas : List ℕ) (acc : List (String × AggGroup)) (r : Row) :
    List (String × AggGroup) :=
  let dimValues := dims.map fun di => (cellAt r di).formattedValue
  upsert acc (joinKey env dimValues) ⟨dimValues, List.replicate meas.length 0, 0⟩
    fun g => ⟨g.dimensions,
      (meas.zip g.measures).map (fun p => p.2 + measureNum (cellAt r p.1).value),
      g.count + 1⟩

/-- Lookup `exportTypes ? exportTypes[pos] : dflt`: `ets = none` is the
JS `undefined` array, an out-of-range index is the JS `undefined`
entry. -/
def exportTypeAt (ets : Option (List (Option String))) (pos : ℕ) (dflt : Option String) :
    Option String :=
  match ets with
  | none => dflt
  | some l => (l.get? pos).join

/-- Assembly of one aggregated output row: dimension and measure values
are written at `selectedIndices.indexOf(columnIndex)`; an absent index
(JS `-1`) makes the write land outside the array and is discarded, which
`List.set` beyond the length reproduces. -/
def buildAggRow (env : JSEnv) (sel : List ℕ) (ets : Option (List (Option String)))
    (dims meas : List ℕ) (g : AggGroup) : List JSVal :=
  let row0 : List JSVal := List.replicate sel.length JSVal.undef
  let row1 := (dims.zip g.dimensions).foldl (fun row p =>
    let pos := sel.findIdx (· = p.1)
    row.set pos (formatValue env p.2 p.2 (exportTypeAt ets pos (some "text")))) row0
  (meas.zip g.measures).foldl (fun row p =>
    let pos := sel.findIdx (· = p.1)
    row.set pos
      (formatValue env (JSVal.num p.2) (JSVal.num p.2) (exportTypeAt ets pos (some "number"))))
    row1

/-- Projection of one source row onto the selected columns with
formatting (the row-building loop shared by the distinct and
no-aggregation paths). -/
def projectRow (env : JSEnv) (sel : List ℕ) (ets : Option (List (Option String))) (r : Row) :
    List JSVal :=
  sel.enum.map fun p =>
    formatValue env (cellAt r p.2).value (cellAt r p.2).formattedValue
      (exportTypeAt ets p.1 (some "text"))

/-- One iteration of the distinct-rows loop: state is the set of seen
keys (as a list, membership only) and the emitted rows. -/
def distinctStep (env : JSEnv) (sel : List ℕ) (ets : Option (List (Option String)))
    (st : List String × List (List JSVal)) (r : Row) : List String × List (List JSVal) :=
  let row := projectRow env sel ets r
  let key := joinKey env row
  if key ∈ st.1 then st else (key :: st.1, st.2 ++ [row])

/-- The aggregation engine `filterColumns` of the source: header first,
then the grouping path (both subsets non-empty), the distinct-rows
path, or the raw pass-through, each skipping suppressed rows. -/
def filterColumns (env : JSEnv) (dt : DataTable) (selectedIndices : List ℕ)
    (selectedNames : List String) (aggregateData : Bool)
    (exportTypes : Option (List (Option String))) (includeNulls : Bool) :
    List (List JSVal) :=
  let header := selectedNames.map JSVal.str
  if aggregateData then
    let dims := selDimensionIndices dt selectedIndices
    let meas := selMeasureIndices dt selectedIndices
    if dims.length > 0 ∧ meas.length > 0 then
      let aggregated := dt.data.foldl (fun acc r =>
        if shouldSkipRow env dt includeNulls r then acc
        else aggStep env dims meas acc r) []
      header :: aggregated.map fun p => buildAggRow env selectedIndices exportTypes dims meas p.2
    else
      let st := dt.data.foldl (fun st r =>
        if shouldSkipRow env dt includeNulls r then st
        else distinctStep env selectedIndices exportTypes st r) ([], [])
      header :: st.2
  else
    header :: dt.data.foldl (fun acc r =>
      if shouldSkipRow env dt includeNulls r then acc
      else acc ++ [projectRow env selectedIndices exportTypes r]) []

/-- Character replacement of `sanitizeSheetName`: the characters
forbidden in sheet names become underscores. -/
def sanitizeChar (c : Char) : Char :=
  if c = '\\' ∨ c = '/' ∨ c = '?' ∨ c = '*' ∨ c = '[' ∨ c = ']' then '_' else c

/-- Sheet-name sanitization of the source: replace every forbidden
character, then truncate to 31 characters. -/
def sanitizeSheetName (name : String) : String :=
  ⟨(name.data.map sanitizeChar).take 31⟩

/-- Matcher for `^([A-Za-z]{3})-(\d{4})$` in `parseDateValue`,
returning the month key and the year. -/
def shortMatch (s : String) : Option (String × ℤ) :=
  match s.data with
  | [a, b, c, h, d1, d2, d3, d4] =>
      if a.isAlpha ∧ b.isAlpha ∧ c.isAlpha ∧ h = '-' ∧
          d1.isDigit ∧ d2.isDigit ∧ d3.isDigit ∧ d4.isDigit
      then some (⟨[a, b, c]⟩, (digitsNat [d1, d2, d3, d4] : ℤ)) else none
  | _ => none

/-- Matcher for `^([A-Za-z]+)\s+(\d{4})$` in `parseDateValue`. -/
def longMatch (s : String) : Option (String × ℤ) :=
  let al := s.data.takeWhile Char.isAlpha
  let r1 := s.data.dropWhile Char.isAlpha
  let ws := r1.takeWhile Char.isWhitespace
  let ds := r1.dropWhile Char.isWhitespace
  if al ≠ [] ∧ ws ≠ [] ∧ ds.length = 4 ∧ ds.all Char.isDigit
  then some (⟨al⟩, (digitsNat ds : ℤ)) else none

/-- The `monthMap` object of `sortDataRows` (exact, case-sensitive
keys, month index 0-11). -/
def monthMap3 : String → Option ℕ
  | "Jan" => some 0
  | "Feb" => some 1
  | "Mar" => some 2
  | "Apr" => some 3
  | "May" => some 4
  | "Jun" => some 5
  | "Jul" => some 6
  | "Aug" => some 7
  | "Sep" => some 8
  | "Oct" => some 9
  | "Nov" => some 10
  | "Dec" => some 11
  | _ => none

/-- The `parseDateValue` helper of `sortDataRows`: a `Date` object
yields its time; otherwise the trimmed string is matched as `Mon-YYYY`,
then as `Month YYYY` (unknown month names fall through), and finally
handed to the host `Date.parse`; `none` models `NaN`. -/
def parseDateValue (env : JSEnv) (v : JSVal) : Option ℤ :=
  match v with
  | JSVal.date t _ _ => some t
  | v =>
    let str := jsTrim (jsToStr env (jsOrEmpty v))
    if str = "" then none
    else
      match (match shortMatch str with
             | some p => (monthMap3 p.1).map fun m => env.dateCtorTime p.2 m
             | none => none) with
      | some t => some t
      | none =>
        match (match longMatch str with
               | some p =>
                 (match monthMap3 ⟨p.1.data.take 3⟩ with
                  | some m => some (env.dateCtorTime p.2 m)
                  | none => (monthMap3 p.1).map fun m => env.dateCtorTime p.2 m)
               | none => none) with
        | some t => some t
        | none => env.dateParse str

/-- Sort key produced by the `normalize` helper of `sortDataRows`: a
number (with `⊥` standing for negative infinity, where unparseable
values sink) or a lower-cased string. -/
inductive SortKey where
  | knum : WithBot ℚ → SortKey
  | kstr : String → SortKey
deriving DecidableEq

/-- Weak order on sort keys induced by the JS comparator (`comparator
result ≤ 0`).  The two key shapes never mix within one call, since the
export type is fixed; the cross cases are arbitrary. -/
def keyLeB : SortKey → SortKey → Bool
  | SortKey.knum x, SortKey.knum y => decide (x ≤ y)
  | SortKey.kstr s, SortKey.kstr t => decide (s ≤ t)
  | SortKey.knum _, SortKey.kstr _ => true
  | SortKey.kstr _, SortKey.knum _ => false

/-- The `normalize` helper of `sortDataRows`: numeric for `number`
(unparseable → negative infinity), month-year time for date types,
case-insensitive string otherwise. -/
def normalizeVal (env : JSEnv) (ty : String) (v : JSVal) : SortKey :=
  if ty = "number" then
    match v with
    | JSVal.num q => SortKey.knum (q : WithBot ℚ)
    | v =>
      match parseFloatVal v with
      | some q => SortKey.knum (q : WithBot ℚ)
      | none => SortKey.knum ⊥
  else if ty = "date" ∨ ty = "date-full" then
    match parseDateValue env v with
    | some t => SortKey.knum ((t : ℚ) : WithBot ℚ)
    | none => SortKey.knum ⊥
  else SortKey.kstr (lowerStr (jsToStr env (jsOrEmpty v)))

/-- Sort key of a data row at the sort column (`a[sortIndex]`, an
out-of-range access being the JS `undefined`). -/
def keyAt (env : JSEnv) (ty : String) (si : ℕ) (r : List JSVal) : SortKey :=
  normalizeVal env ty ((r.get? si).getD JSVal.undef)

/-- The row order induced by the JS comparator of `sortDataRows`
(true when the comparator returns ≤ 0, i.e. `a` may stay before `b`);
a direction other than `asc` compares in reverse. -/
def rowLeB (env : JSEnv) (ty dir : String) (si : ℕ) (a b : List JSVal) : Bool :=
  if dir = "asc" then keyLeB (keyAt env ty si a) (keyAt env ty si b)
  else keyLeB (keyAt env ty si b) (keyAt env ty si a)

/-- The sort stage `sortDataRows` of the source.  `Array.prototype.sort`
is stable and, under the consistent key-based comparator, produces the
sorted permutation; `List.insertionSort` is the canonical stable sort
with the same contract. -/
def sortDataRows (env : JSEnv) (data : List (List JSVal)) (sortIndex : Option ℤ)
    (direction exportType : String) : List (List JSVal) :=
  if data.length ≤ 1 then data
  else
    match sortIndex with
    | none => data
    | some i =>
      if i < 0 then data
      else
        match data with
        | [] => data
        | header :: rows =>
            header ::
              List.insertionSort
                (fun a b => rowLeB env exportType direction i.toNat a b = true) rows

/-- Executable instantiation of the host environment, used to evaluate
concrete examples: `dateCtorTime` is the strictly monotone month
counter `y * 12 + m` standing in for the epoch time of the first of the
month, and `Date.parse` rejects everything else. -/
def envModel : JSEnv where
  numToString q := if q.den = 1 then toString q.num else toString q.num ++ "/" ++ toString q.den
  dateToString t m y := "[Date " ++ toString t ++ " " ++ toString m ++ " " ++ toString y ++ "]"
  dateParse _ := none
  dateCtorTime y m := y * 12 + (m : ℤ)

/-- Model of `Array.prototype.findIndex` (the JS `-1` is `none`). -/
def jsFindIndex (p : Column → Bool) : List Column → Option ℕ
  | [] => none
  | c :: t => if p c then some 0 else (jsFindIndex p t).map (· + 1)

/-- The per-worksheet column-selection configuration
(`columnSelectionConfig` entry): parallel arrays of original field
names, output names and export types, the latter absent when the
column-selection UI was not used. -/
structure WSColumns where
  originalNames : List String
  names : List String
  exportTypes : Option (List String)

/-- Head of the export-type array under the `exportTypes ?
exportTypes[idx] : 'text'` convention. -/
def etHead : Option (List String) → Option String
  | none => some "text"
  | some l => l.head?

/-- Tail counterpart of `etHead`, advancing the shared index. -/
def etTail : Option (List String) → Option (List String)
  | none => none
  | some l => some l.tail

/-- The column-resolution loop of `exportToExcel` (lines 1206-1219):
each selected original field name is looked up by name in the fresh
columns; a hit contributes `(fresh index, output name, export type)`,
a miss is dropped.  The parallel arrays advance with the shared
`forEach` index. -/
def resolveGo (cols : List Column) :
    List String → List String → Option (List String) →
      List (ℕ × Option String × Option String)
  | [], _, _ => []
  | n :: ns, names, ets =>
    match jsFindIndex (fun c => c.fieldName == n) cols with
    | some i => (i, names.head?, etHead ets) :: resolveGo cols ns names.tail (etTail ets)
    | none => resolveGo cols ns names.tail (etTail ets)

/-- Resolution of a worksheet's saved column selection against the
fresh result-set columns. -/
def resolveSelected (cols : List Column) (ws : WSColumns) :
    List (ℕ × Option String × Option String) :=
  resolveGo cols ws.originalNames ws.names ws.exportTypes

/-- The per-worksheet export decision of `exportToExcel` for a saved,
non-empty column selection: resolve by name, skip the worksheet
(`none`) when nothing resolves, otherwise run `filterColumns` on the
mapped indices/names/types.  An undefined mapped name (misaligned
config) is modelled as `""`. -/
def exportData (env : JSEnv) (dt : DataTable) (ws : WSColumns)
    (aggregate includeNulls : Bool) : Option (List (List JSVal)) :=
  if ws.originalNames.length > 0 then
    let resolved := resolveSelected dt.columns ws
    if resolved.length > 0 then
      some (filterColumns env dt (resolved.map fun p => p.1)
        (resolved.map fun p => (p.2.1).getD "")
        aggregate (some (resolved.map fun p => p.2.2)) includeNulls)
    else none
  else none

lemma get?_take_of_lt {α : Type} : ∀ (l : List α) (n i : ℕ), i < n → (l.take n).get? i = l.get? i := by
  intro l
  induction l with
  | nil => intro n i _; simp
  | cons a t ih =>
    intro n i h
    cases n with
    | zero => omega
    | succ n =>
      cases i with
      | zero => simp
      | succ i => simpa using ih n i (by omega)

/-- Data for the sanitization example of the spec. -/
def nameC7 : String := "Q1/Q2 Report?"

/-- C7: sheet-name sanitization replaces each of the characters
`\ / ? * [ ]` by an underscore position-wise and truncates the result
to at most 31 characters; `"Q1/Q2 Report?"` maps to `"Q1_Q2 Report_"`
and any 40-character name maps to exactly 31 characters. -/
theorem sanitizeSheetName_spec : ∀ name : String,
    (sanitizeSheetName name).length = min name.length 31
  ∧ (∀ i : ℕ, i < 31 → (sanitizeSheetName name).data.get? i = (name.data.get? i).map sanitizeChar)
  ∧ (name.length = 40 → (sanitizeSheetName name).length = 31)
  ∧ sanitizeSheetName nameC7 = "Q1_Q2 Report_" := by
  intro name
  refine ⟨?_, ?_, ?_, by with_unfolding_all decide⟩
  · show ((name.data.map sanitizeChar).take 31).length = _
    rw [List.length_take, List.length_map]
    exact Nat.min_comm 31 name.data.length
  · intro i hi
    show ((name.data.map sanitizeChar).take 31).get? i = _
    rw [get?_take_of_lt _ _ _ hi, List.get?_map]
  · intro h
    have h2 : name.data.length = 40 := h
    show ((name.data.map sanitizeChar).take 31).length = 31
    rw [List.length_take, List.length_map, h2]
    decide

/-- Witness for C7 at a concrete input with the hypotheses
discharged. -/
theorem sanitizeSheetName_spec_witness :
    (sanitizeSheetName nameC7).data.get? 2 = (nameC7.data.get? 2).map sanitizeChar
  ∧ (sanitizeSheetName "0123456789012345678901234567890123456789").length = 31 := by
  refine ⟨(sanitizeSheetName_spec nameC7).2.1 2 (by decide), ?_⟩
  exact (sanitizeSheetName_spec "0123456789012345678901234567890123456789").2.2.1
    (by with_unfolding_all decide)

/-- C5: the value formatter is a total function and, for the `number`
output type, returns a numeric raw value directly, otherwise the
`parseFloat` of the raw value, falling back to the display value
unchanged when parsing fails. -/
theorem formatValue_number_spec : ∀ (env : JSEnv) (v d : JSVal),
    (∀ q : ℚ, v = JSVal.num q → formatValue env v d (some "number") = JSVal.num q)
  ∧ (∀ q : ℚ, (∀ r : ℚ, v ≠ JSVal.num r) → parseFloatVal v = some q →
      formatValue env v d (some "number") = JSVal.num q)
  ∧ ((∀ r : ℚ, v ≠ JSVal.num r) → parseFloatVal v = none →
      formatValue env v d (some "number") = d) := by
  intro env v d
  refine ⟨?_, ?_, ?_⟩
  · intro q hq
    subst hq
    rfl
  · intro q hne hp
    cases v with
    | num r => exact absurd rfl (hne r)
    | null => simp [parseFloatVal] at hp
    | undef => simp [parseFloatVal] at hp
    | bool b => simp [parseFloatVal] at hp
    | date t m y => simp [parseFloatVal] at hp
    | str s =>
      show (match parseFloatVal (JSVal.str s) with
            | some q => JSVal.num q
            | none => d) = JSVal.num q
      rw [hp]
  · intro hne hp
    cases v with
    | num r => exact absurd rfl (hne r)
    | null => rfl
    | undef => rfl
    | bool b => rfl
    | date t m y => rfl
    | str s =>
      show (match parseFloatVal (JSVal.str s) with
            | some q => JSVal.num q
            | none => d) = d
      rw [hp]

/-- Witness for C5: a malformed numeric string falls back to the
display value, a well-formed one parses. -/
theorem formatValue_number_spec_witness :
    formatValue envModel (JSVal.str "abc") (JSVal.str "fallback") (some "number")
      = JSVal.str "fallback"
  ∧ formatValue envModel (JSVal.str "12.5") (JSVal.str "x") (some "number")
      = JSVal.num (25 / 2) := by
  constructor
  · exact (formatValue_number_spec envModel (JSVal.str "abc") (JSVal.str "fallback")).2.2
      (fun r h => JSVal.noConfusion h) (by with_unfolding_all decide)
  · exact (formatValue_number_spec envModel (JSVal.str "12.5") (JSVal.str "x")).2.1 (25 / 2)
      (fun r h => JSVal.noConfusion h) (by with_unfolding_all decide)

/-- Result set shape for the total-row claims: one string dimension and
one integer measure. -/
def dtC2 : DataTable :=
  ⟨[⟨"Region", "string"⟩, ⟨"Qty", "int"⟩], []⟩

/-- The row `{Region:"Total", Qty:18}`. -/
def rowC2tot : Row :=
  [⟨JSVal.str "Total", JSVal.str "Total"⟩, ⟨JSVal.num 18, JSVal.str "18"⟩]

/-- A `Total`-labelled row whose measure cell is empty. -/
def rowC2empty : Row :=
  [⟨JSVal.str "Total", JSVal.str "Total"⟩, ⟨JSVal.null, JSVal.str ""⟩]

/-- Counterexample to C2 as stated: a row whose dimension value is
exactly `Total` but whose only measure cell is empty is kept by the
row filter under both `includeNulls` settings, because the
no-measure-value check precedes the total-label check. -/
theorem shouldSkipRow_total_counterexample :
    (dimValsAll dtC2 rowC2empty).any (isTotalLabel envModel) = true
  ∧ shouldSkipRow envModel dtC2 false rowC2empty = false
  ∧ shouldSkipRow envModel dtC2 true rowC2empty = false := by
  with_unfolding_all decide

/-- C2 (amended): a row with at least one non-empty measure value (or
belonging to a result set with no measure columns, where
`hasMeasureValue` is vacuously true) in which any dimension value
matches `total`/`grand total` is dropped for both `includeNulls`
settings. -/
theorem shouldSkipRow_total_dropped : ∀ (env : JSEnv) (dt : DataTable) (inc : Bool) (row : Row),
    hasMeasureValue dt row = true →
    (dimValsAll dt row).any (isTotalLabel env) = true →
    shouldSkipRow env dt inc row = true := by
  intro env dt inc row hm ht
  unfold shouldSkipRow
  simp [hm, ht]

/-- Witness for the amended C2: `{Region:"Total", Qty:18}` is dropped
even when `includeNulls` is true. -/
theorem shouldSkipRow_total_dropped_witness :
    shouldSkipRow envModel dtC2 true rowC2tot = true :=
  shouldSkipRow_total_dropped envModel dtC2 true rowC2tot
    (by with_unfolding_all decide) (by with_unfolding_all decide)

/-- A result set with no measure column at all. -/
def dtC3nm : DataTable :=
  ⟨[⟨"Region", "string"⟩], []⟩

/-- A `Total`-labelled row of the measure-free result set. -/
def rowC3nm : Row := [⟨JSVal.str "Total", JSVal.str "Total"⟩]

/-- Result set and row for the C3 witness: measure column present but
empty in the row. -/
def dtC3w : DataTable :=
  ⟨[⟨"Region", "string"⟩, ⟨"Qty", "int"⟩], []⟩

/-- A row of `dtC3w` with blank dimension and empty measure. -/
def rowC3w : Row :=
  [⟨JSVal.str "", JSVal.str ""⟩, ⟨JSVal.null, JSVal.str ""⟩]

/-- A measure cell counting as empty for the suppression scan: both the
raw and the formatted value are `null`, `undefined` or `""` (or the
cell is missing). -/
def measureCellBlank (oc : Option Cell) : Bool :=
  match oc with
  | none => true
  | some c => blankVal c.value && blankVal c.formattedValue

/-- Counterexample to C3 as stated: in a result set with no measure
columns, a row vacuously has no non-empty measure value, yet a
`Total`-labelled row is dropped (the source forces `hasMeasureValue`
to true when the measure column set is empty). -/
theorem shouldSkipRow_noMeasureCols_counterexample :
    measureIndicesAll dtC3nm = []
  ∧ shouldSkipRow envModel dtC3nm false rowC3nm = true
  ∧ shouldSkipRow envModel dtC3nm true rowC3nm = true := by
  with_unfolding_all decide

/-- C3 (amended): in a result set with at least one measure column, a
row all of whose measure cells are empty (raw and formatted) is kept
regardless of `includeNulls`, blank dimensions or total labels. -/
theorem shouldSkipRow_emptyMeasures_kept : ∀ (env : JSEnv) (dt : DataTable) (inc : Bool) (row : Row),
    measureIndicesAll dt ≠ [] →
    ((measureIndicesAll dt).all fun mi => measureCellBlank (row.get? mi)) = true →
    shouldSkipRow env dt inc row = false := by
  intro env dt inc row hne hb
  have hmv : hasMeasureValue dt row = false := by
    unfold hasMeasureValue
    have hie : (measureIndicesAll dt).isEmpty = false := by
      cases h0 : measureIndicesAll dt with
      | nil => exact absurd h0 hne
      | cons a t => rfl
    simp only [hie, Bool.false_eq_true, if_false]
    rw [List.any_eq_false]
    intro mi hmi
    have hbi := List.all_eq_true.mp hb mi hmi
    cases hc : row.get? mi with
    | none => simp
    | some c =>
      rw [hc] at hbi
      unfold measureCellBlank at hbi
      have hv : blankVal c.value = true := ((Bool.and_eq_true _ _).mp hbi).1
      have hf : blankVal c.formattedValue = true := ((Bool.and_eq_true _ _).mp hbi).2
      simp [hv, hf]
  unfold shouldSkipRow
  simp [hmv]

/-- Witness for the amended C3: a row with blank dimension, empty
measure and `includeNulls = false` is nevertheless kept. -/
theorem shouldSkipRow_emptyMeasures_kept_witness :
    shouldSkipRow envModel dtC3w false rowC3w = false :=
  shouldSkipRow_emptyMeasures_kept envModel dtC3w false rowC3w
    (by with_unfolding_all decide) (by with_unfolding_all decide)

/-- Result set shape for the blank-dimension claim. -/
def dtC4 : DataTable :=
  ⟨[⟨"Region", "string"⟩, ⟨"Qty", "int"⟩], []⟩

/-- The row `{Region:"", Qty:7}`. -/
def rowC4blank : Row :=
  [⟨JSVal.str "", JSVal.str ""⟩, ⟨JSVal.num 7, JSVal.str "7"⟩]

/-- C4: for a row with at least one non-empty measure value and no
total label, the filter with `includeNulls = false` drops the row
exactly when some dimension value is nullish (blank, whitespace,
`null`, `(null)`, `(blank)`), and with `includeNulls = true` always
keeps it. -/
theorem shouldSkipRow_blankDims_spec : ∀ (env : JSEnv) (dt : DataTable) (row : Row),
    hasMeasureValue dt row = true →
    (dimValsAll dt row).any (isTotalLabel env) = false →
    (shouldSkipRow env dt false row = (dimValsAll dt row).any (isNullish env))
  ∧ shouldSkipRow env dt true row = false := by
  intro env dt row hm ht
  constructor
  · unfold shouldSkipRow
    simp only [hm, ht]
    cases hn : (dimValsAll dt row).any (isNullish env) with
    | true => simp [hn]
    | false => simp [hn]
  · unfold shouldSkipRow
    simp [hm, ht]

/-- Witness for C4: `{Region:"", Qty:7}` is dropped with
`includeNulls = false` and kept with `includeNulls = true`. -/
theorem shouldSkipRow_blankDims_witness :
    shouldSkipRow envModel dtC4 false rowC4blank = true
  ∧ shouldSkipRow envModel dtC4 true rowC4blank = false := by
  have h := shouldSkipRow_blankDims_spec envModel dtC4 rowC4blank
    (by with_unfolding_all decide) (by with_unfolding_all decide)
  exact ⟨h.1.trans (by with_unfolding_all decide), h.2⟩

/-- The result set of the aggregation example of the spec:
`[{Region:"East",Qty:10},{Region:"East",Qty:5},{Region:"West",Qty:3}]`
with `Region` a string dimension and `Qty` an integer measure. -/
def dtC1 : DataTable :=
  ⟨[⟨"Region", "string"⟩, ⟨"Qty", "int"⟩],
   [[⟨JSVal.str "East", JSVal.str "East"⟩, ⟨JSVal.num 10, JSVal.str "10"⟩],
    [⟨JSVal.str "East", JSVal.str "East"⟩, ⟨JSVal.num 5, JSVal.str "5"⟩],
    [⟨JSVal.str "West", JSVal.str "West"⟩, ⟨JSVal.num 3, JSVal.str "3"⟩]]⟩

/-- C1: aggregating the example result set groups by the dimension
display value, sums the measure per group, and emits the header
`["Region","Qty"]` followed by `["East",15]` and `["West",3]` in
first-encounter order of the grouping key. -/
theorem filterColumns_aggregation_example :
    filterColumns envModel dtC1 [0, 1] ["Region", "Qty"] true none false
      = [[JSVal.str "Region", JSVal.str "Qty"],
         [JSVal.str "East", JSVal.num 15],
         [JSVal.str "West", JSVal.num 3]] := by
  with_unfolding_all decide

lemma jsFindIndex_get (p : Column → Bool) : ∀ (cols : List Column) (i : ℕ),
    jsFindIndex p cols = some i → ∃ c, cols.get? i = some c ∧ p c = true := by
  intro cols
  induction cols with
  | nil => intro i h; exact absurd h (by simp [jsFindIndex])
  | cons c t ih =>
    intro i h
    unfold jsFindIndex at h
    by_cases hc : p c
    · rw [if_pos hc] at h
      cases h
      exact ⟨c, rfl, hc⟩
    · rw [if_neg hc] at h
      obtain ⟨j, hj, rfl⟩ := Option.map_eq_some'.mp h
      obtain ⟨d, hd, hp⟩ := ih j hj
      exact ⟨d, by simpa using hd, hp⟩

/-- The fresh-result-set field name a resolved entry points at. -/
def resolvedField (cols : List Column) (p : ℕ × Option String × Option String) : String :=
  ((cols.get? p.1).map Column.fieldName).getD ""

lemma resolveGo_all_present (cols : List Column) : ∀ (ns names : List String)
    (ets : Option (List String)),
    (∀ n ∈ ns, (jsFindIndex (fun c => c.fieldName == n) cols).isSome = true) →
    (resolveGo cols ns names ets).map (resolvedField cols) = ns := by
  intro ns
  induction ns with
  | nil => intro names ets _; rfl
  | cons n ns ih =>
    intro names ets hall
    obtain ⟨i, hi⟩ := Option.isSome_iff_exists.mp (hall n (List.mem_cons_self n ns))
    have hstep : resolveGo cols (n :: ns) names ets
        = (i, names.head?, etHead ets) :: resolveGo cols ns names.tail (etTail ets) := by
      simp only [resolveGo]
      rw [hi]
    rw [hstep, List.map_cons]
    congr 1
    · obtain ⟨c, hc, hp⟩ := jsFindIndex_get _ cols i hi
      unfold resolvedField
      rw [hc]
      simpa using eq_of_beq hp
    · exact ih names.tail (etTail ets) fun m hm => hall m (List.mem_cons_of_mem _ hm)

lemma resolveGo_erase (cols : List Column) : ∀ (k : ℕ) (ns names : List String)
    (ets : Option (List String)) (nk : String),
    ns.get? k = some nk →
    jsFindIndex (fun c => c.fieldName == nk) cols = none →
    resolveGo cols ns names ets
      = resolveGo cols (ns.eraseIdx k) (names.eraseIdx k) (ets.map fun l => l.eraseIdx k) := by
  intro k
  induction k with
  | zero =>
    intro ns names ets nk hk hnone
    cases ns with
    | nil => cases hk
    | cons n ns =>
      have hn : n = nk := by simpa using hk
      subst hn
      have hL : resolveGo cols (n :: ns) names ets
          = resolveGo cols ns names.tail (etTail ets) := by
        simp only [resolveGo]
        rw [hnone]
      rw [hL]
      show _ = resolveGo cols ns (names.eraseIdx 0) (ets.map fun l => l.eraseIdx 0)
      congr 1
      · cases names <;> rfl
      · cases ets with
        | none => rfl
        | some l => cases l <;> rfl
  | succ k ih =>
    intro ns names ets nk hk hnone
    cases ns with
    | nil => cases hk
    | cons n ns =>
      have hk' : ns.get? k = some nk := by simpa using hk
      have hnames : (names.eraseIdx (k + 1)).head? = names.head? := by cases names <;> rfl
      have het : etHead (ets.map fun l => l.eraseIdx (k + 1)) = etHead ets := by
        cases ets with
        | none => rfl
        | some l => cases l <;> rfl
      have hnt : (names.eraseIdx (k + 1)).tail = names.tail.eraseIdx k := by
        cases names <;> rfl
      have hett : etTail (ets.map fun l => l.eraseIdx (k + 1))
          = (etTail ets).map fun l => l.eraseIdx k := by
        cases ets with
        | none => rfl
        | some l => cases l <;> rfl
      show resolveGo cols (n :: ns) names ets
        = resolveGo cols (n :: ns.eraseIdx k) (names.eraseIdx (k + 1))
            (ets.map fun l => l.eraseIdx (k + 1))
      cases hf : jsFindIndex (fun c => c.fieldName == n) cols with
      | some i =>
        have hL : resolveGo cols (n :: ns) names ets
            = (i, names.head?, etHead ets) :: resolveGo cols ns names.tail (etTail ets) := by
          simp only [resolveGo]
          rw [hf]
        have hR : resolveGo cols (n :: ns.eraseIdx k) (names.eraseIdx (k + 1))
              (ets.map fun l => l.eraseIdx (k + 1))
            = (i, (names.eraseIdx (k + 1)).head?, etHead (ets.map fun l => l.eraseIdx (k + 1))) ::
                resolveGo cols (ns.eraseIdx k) (names.eraseIdx (k + 1)).tail
                  (etTail (ets.map fun l => l.eraseIdx (k + 1))) := by
          simp only [resolveGo]
          rw [hf]
        rw [hL, hR, hnames, het, hnt, hett]
        congr 1
        exact ih ns names.tail (etTail ets) nk hk' hnone
      | none =>
        have hL : resolveGo cols (n :: ns) names ets
            = resolveGo cols ns names.tail (etTail ets) := by
          simp only [resolveGo]
          rw [hf]
        have hR : resolveGo cols (n :: ns.eraseIdx k) (names.eraseIdx (k + 1))
              (ets.map fun l => l.eraseIdx (k + 1))
            = resolveGo cols (ns.eraseIdx k) (names.eraseIdx (k + 1)).tail
                (etTail (ets.map fun l => l.eraseIdx (k + 1))) := by
          simp only [resolveGo]
          rw [hf]
        rw [hL, hR, hnt, hett]
        exact ih ns names.tail (etTail ets) nk hk' hnone

/-- C8: resolving a selection against columns containing every
referenced field name yields one entry per selected column, in
selection order, pointing at the column of that name; a selection with
one unresolvable name resolves exactly like the selection with that
column removed; and a non-empty selection none of whose names resolve
makes the export skip the worksheet (`none`) instead of failing. -/
theorem resolveColumns_spec : ∀ (cols : List Column) (ns names : List String)
    (ets : Option (List String)),
    ((∀ n ∈ ns, (jsFindIndex (fun c => c.fieldName == n) cols).isSome = true) →
      (resolveGo cols ns names ets).map (resolvedField cols) = ns)
  ∧ (∀ (k : ℕ) (nk : String), ns.get? k = some nk →
      jsFindIndex (fun c => c.fieldName == nk) cols = none →
      resolveGo cols ns names ets
        = resolveGo cols (ns.eraseIdx k) (names.eraseIdx k) (ets.map fun l => l.eraseIdx k))
  ∧ (∀ (env : JSEnv) (dt : DataTable) (ws : WSColumns) (agg inc : Bool),
      ws.originalNames.length > 0 → resolveSelected dt.columns ws = [] →
      exportData env dt ws agg inc = none) := by
  intro cols ns names ets
  refine ⟨resolveGo_all_present cols ns names ets,
    fun k nk hk hn => resolveGo_erase cols k ns names ets nk hk hn, ?_⟩
  intro env dt ws agg inc hlen hres
  unfold exportData
  simp [hlen, hres]

/-- Columns for the C8 witness. -/
def colsC8 : List Column := [⟨"Region", "string"⟩, ⟨"Qty", "int"⟩]

/-- Witness for C8: a fully resolvable selection round-trips, and a
selection with the unresolvable name `Missing` at position 1 resolves
like the selection with that column erased. -/
theorem resolveColumns_spec_witness :
    (resolveGo colsC8 ["Region", "Qty"] ["R", "Q"] none).map (resolvedField colsC8)
      = ["Region", "Qty"]
  ∧ resolveGo colsC8 ["Region", "Missing", "Qty"] ["R", "M", "Q"]
        (some ["text", "number", "number"])
      = resolveGo colsC8 (["Region", "Missing", "Qty"].eraseIdx 1)
          (["R", "M", "Q"].eraseIdx 1)
          ((some ["text", "number", "number"]).map fun l => l.eraseIdx 1) := by
  constructor
  · exact (resolveColumns_spec colsC8 ["Region", "Qty"] ["R", "Q"] none).1
      (by with_unfolding_all decide)
  · exact (resolveColumns_spec colsC8 ["Region", "Missing", "Qty"] ["R", "M", "Q"]
        (some ["text", "number", "number"])).2.1 1 "Missing"
      (by with_unfolding_all decide) (by with_unfolding_all decide)

lemma foldl_skip_filter {α : Type} (skip : Row → Bool) (f : α → Row → α) :
    ∀ (L : List Row) (acc : α),
    L.foldl (fun a r => if skip r then a else f a r) acc
      = (L.filter fun r => !skip r).foldl f acc := by
  intro L
  induction L with
  | nil => intro acc; rfl
  | cons r L ih =>
    intro acc
    by_cases h : skip r
    · simp [List.foldl_cons, List.filter_cons, h, ih]
    · simp [List.foldl_cons, List.filter_cons, h, ih]

lemma foldl_append_singleton {α β : Type} (g : α → β) :
    ∀ (L : List α) (acc : List β), L.foldl (fun a r => a ++ [g r]) acc = acc ++ L.map g := by
  intro L
  induction L with
  | nil => intro acc; simp
  | cons r L ih => intro acc; simp [List.foldl_cons, ih]

/-- C10: the rows surviving suppression in the raw export path are
exactly `survivingRows`, computed from the whole result set and
independent of the column selection; consequently any two selections
drop the same rows and produce the same number of body rows. -/
theorem filterColumns_suppression_selection_independent :
    ∀ (env : JSEnv) (dt : DataTable) (inc : Bool)
      (sel1 : List ℕ) (names1 : List String) (ets1 : Option (List (Option String)))
      (sel2 : List ℕ) (names2 : List String) (ets2 : Option (List (Option String))),
    ((filterColumns env dt sel1 names1 false ets1 inc).drop 1
      = (survivingRows env dt inc).map (projectRow env sel1 ets1))
  ∧ ((filterColumns env dt sel1 names1 false ets1 inc).drop 1).length
      = ((filterColumns env dt sel2 names2 false ets2 inc).drop 1).length := by
  have key : ∀ (env : JSEnv) (dt : DataTable) (inc : Bool) (sel : List ℕ)
      (names : List String) (ets : Option (List (Option String))),
      (filterColumns env dt sel names false ets inc).drop 1
        = (survivingRows env dt inc).map (projectRow env sel ets) := by
    intro env dt inc sel names ets
    have h1 : filterColumns env dt sel names false ets inc
        = (names.map JSVal.str) :: dt.data.foldl
            (fun acc r => if shouldSkipRow env dt inc r then acc
              else acc ++ [projectRow env sel ets r]) [] := rfl
    rw [h1, List.drop_one, List.tail_cons,
      foldl_skip_filter (shouldSkipRow env dt inc)
        (fun acc r => acc ++ [projectRow env sel ets r]),
      foldl_append_singleton]
    rfl
  intro env dt inc sel1 names1 ets1 sel2 names2 ets2
  refine ⟨key env dt inc sel1 names1 ets1, ?_⟩
  rw [key env dt inc sel1 names1 ets1, key env dt inc sel2 names2 ets2,
    List.length_map, List.length_map]

/-- Count of keys not yet seen, walking the key list in order: the
number of groups the insertion-ordered map ends up with. -/
def countNew : List String → List String → ℕ
  | [], _ => 0
  | k :: ks, seen => if k ∈ seen then countNew ks seen else 1 + countNew ks (k :: seen)

lemma countNew_congr : ∀ (ks s1 s2 : List String),
    (∀ x, x ∈ s1 ↔ x ∈ s2) → countNew ks s1 = countNew ks s2 := by
  intro ks
  induction ks with
  | nil => intro s1 s2 _; rfl
  | cons k ks ih =>
    intro s1 s2 h
    simp only [countNew]
    by_cases hk : k ∈ s1
    · rw [if_pos hk, if_pos ((h k).mp hk)]
      exact ih s1 s2 h
    · rw [if_neg hk, if_neg fun hx => hk ((h k).mpr hx)]
      congr 1
      exact ih _ _ fun x => by simp only [List.mem_cons]; rw [h x]

lemma countNew_toFinset_card : ∀ (ks seen : List String),
    countNew ks seen = (ks.toFinset \ seen.toFinset).card := by
  intro ks
  induction ks with
  | nil => intro seen; simp [countNew]
  | cons k ks ih =>
    intro seen
    simp only [countNew]
    by_cases hk : k ∈ seen
    · rw [if_pos hk, ih]
      congr 1
      ext x
      by_cases hxk : x = k
      · subst hxk
        simp [hk]
      · simp [hxk]
    · rw [if_neg hk, ih (k :: seen)]
      have hset : (k :: ks).toFinset \ seen.toFinset
          = insert k (ks.toFinset \ (k :: seen).toFinset) := by
        ext x
        by_cases hxk : x = k
        · subst hxk
          simp [hk]
        · simp [hxk]
      rw [hset, Finset.card_insert_of_not_mem]
      · omega
      · simp [Finset.mem_sdiff]

lemma upsert_keys : ∀ (acc : List (String × AggGroup)) (key : String) (g0 : AggGroup)
    (f : AggGroup → AggGroup),
    (upsert acc key g0 f).map Prod.fst
      = if key ∈ acc.map Prod.fst then acc.map Prod.fst else acc.map Prod.fst ++ [key] := by
  intro acc key g0 f
  induction acc with
  | nil => simp [upsert]
  | cons p t ih =>
    obtain ⟨k, g⟩ := p
    by_cases hk : k = key
    · subst hk
      simp [upsert]
    · by_cases hm : key ∈ t.map Prod.fst
      · simp [upsert, hk, ih, hm, Ne.symm hk]
      · simp [upsert, hk, ih, hm, Ne.symm hk]

lemma upsert_length : ∀ (acc : List (String × AggGroup)) (key : String) (g0 : AggGroup)
    (f : AggGroup → AggGroup),
    (upsert acc key g0 f).length
      = if key ∈ acc.map Prod.fst then acc.length else acc.length + 1 := by
  intro acc key g0 f
  have h := congrArg List.length (upsert_keys acc key g0 f)
  rw [List.length_map] at h
  by_cases hm : key ∈ acc.map Prod.fst
  · rw [if_pos hm] at h ⊢
    rw [h, List.length_map]
  · rw [if_neg hm] at h ⊢
    rw [h, List.length_append, List.length_map]
    rfl

lemma aggStep_keys (env : JSEnv) (dims meas : List ℕ) (acc : List (String × AggGroup)) (r : Row) :
    (aggStep env dims meas acc r).map Prod.fst
      = if rowDimKey env dims r ∈ acc.map Prod.fst then acc.map Prod.fst
        else acc.map Prod.fst ++ [rowDimKey env dims r] :=
  upsert_keys acc _ _ _

lemma aggStep_length (env : JSEnv) (dims meas : List ℕ) (acc : List (String × AggGroup)) (r : Row) :
    (aggStep env dims meas acc r).length
      = if rowDimKey env dims r ∈ acc.map Prod.fst then acc.length else acc.length + 1 :=
  upsert_length acc _ _ _

lemma aggFold_length (env : JSEnv) (dims meas : List ℕ) :
    ∀ (L : List Row) (acc : List (String × AggGroup)),
    (L.foldl (aggStep env dims meas) acc).length
      = acc.length + countNew (L.map (rowDimKey env dims)) (acc.map Prod.fst) := by
  intro L
  induction L with
  | nil => intro acc; simp [countNew]
  | cons r L ih =>
    intro acc
    rw [List.foldl_cons, ih, List.map_cons]
    simp only [countNew]
    by_cases hm : rowDimKey env dims r ∈ acc.map Prod.fst
    · rw [if_pos hm]
      have h1 := aggStep_length env dims meas acc r
      rw [if_pos hm] at h1
      have h2 := aggStep_keys env dims meas acc r
      rw [if_pos hm] at h2
      rw [h1, h2]
    · rw [if_neg hm]
      have h1 := aggStep_length env dims meas acc r
      rw [if_neg hm] at h1
      have h2 := aggStep_keys env dims meas acc r
      rw [if_neg hm] at h2
      rw [h1, h2]
      have h3 : countNew (L.map (rowDimKey env dims))
            (acc.map Prod.fst ++ [rowDimKey env dims r])
          = countNew (L.map (rowDimKey env dims)) (rowDimKey env dims r :: acc.map Prod.fst) := by
        apply countNew_congr
        intro x
        simp [List.mem_append, List.mem_cons, or_comm]
      rw [h3]
      omega

/-- The distinct-path deduplication key of a source row. -/
def rowDistinctKey (env : JSEnv) (sel : List ℕ) (ets : Option (List (Option String))) (r : Row) :
    String :=
  joinKey env (projectRow env sel ets r)

lemma distinctFold_length (env : JSEnv) (sel : List ℕ) (ets : Option (List (Option String))) :
    ∀ (L : List Row) (seen : List String) (acc : List (List JSVal)),
    ((L.foldl (distinctStep env sel ets) (seen, acc)).2).length
      = acc.length + countNew (L.map (rowDistinctKey env sel ets)) seen := by
  intro L
  induction L with
  | nil => intro seen acc; simp [countNew]
  | cons r L ih =>
    intro seen acc
    rw [List.foldl_cons, List.map_cons]
    simp only [countNew]
    by_cases hm : rowDistinctKey env sel ets r ∈ seen
    · have hm2 : joinKey env (projectRow env sel ets r) ∈ seen := hm
      have hstep : distinctStep env sel ets (seen, acc) r = (seen, acc) := by
        simp only [distinctStep]
        rw [if_pos hm2]
      rw [hstep, ih, if_pos hm]
    · have hm2 : joinKey env (projectRow env sel ets r) ∉ seen := hm
      have hstep : distinctStep env sel ets (seen, acc) r
          = (rowDistinctKey env sel ets r :: seen, acc ++ [projectRow env sel ets r]) := by
        simp only [distinctStep]
        rw [if_neg hm2]
        rfl
      rw [hstep, ih, if_neg hm, List.length_append]
      simp
      omega

/-- Result set exhibiting a `|||` key collision: the two rows have
different dimension tuples (`("a|||b", "c")` vs `("a", "b|||c")`) whose
joins coincide. -/
def dtC9 : DataTable :=
  ⟨[⟨"A", "string"⟩, ⟨"B", "string"⟩, ⟨"Qty", "int"⟩],
   [[⟨JSVal.str "a|||b", JSVal.str "a|||b"⟩, ⟨JSVal.str "c", JSVal.str "c"⟩,
     ⟨JSVal.num 1, JSVal.str "1"⟩],
    [⟨JSVal.str "a", JSVal.str "a"⟩, ⟨JSVal.str "b|||c", JSVal.str "b|||c"⟩,
     ⟨JSVal.num 2, JSVal.str "2"⟩]]⟩

/-- First row of `dtC9`. -/
def rowC9a : Row :=
  [⟨JSVal.str "a|||b", JSVal.str "a|||b"⟩, ⟨JSVal.str "c", JSVal.str "c"⟩,
   ⟨JSVal.num 1, JSVal.str "1"⟩]

/-- Second row of `dtC9`. -/
def rowC9b : Row :=
  [⟨JSVal.str "a", JSVal.str "a"⟩, ⟨JSVal.str "b|||c", JSVal.str "b|||c"⟩,
   ⟨JSVal.num 2, JSVal.str "2"⟩]

/-- C9: both deduplication keys are the `|||`-join of the cell values,
so the number of emitted body rows equals the number of distinct joined
keys among surviving rows (grouping path and distinct path alike), and
two rows with different value tuples but equal joined keys are merged —
witnessed concretely by `dtC9`, whose two distinct rows collapse into
one group with summed measure `3`. -/
theorem filterColumns_join_key_spec : ∀ (env : JSEnv) (dt : DataTable) (sel : List ℕ)
    (names : List String) (ets : Option (List (Option String))) (inc : Bool),
    ((selDimensionIndices dt sel).length > 0 → (selMeasureIndices dt sel).length > 0 →
      (filterColumns env dt sel names true ets inc).length
        = 1 + ((survivingRows env dt inc).map
            (rowDimKey env (selDimensionIndices dt sel))).toFinset.card)
  ∧ (¬((selDimensionIndices dt sel).length > 0 ∧ (selMeasureIndices dt sel).length > 0) →
      (filterColumns env dt sel names true ets inc).length
        = 1 + ((survivingRows env dt inc).map
            (rowDistinctKey env sel ets)).toFinset.card)
  ∧ (((selDimensionIndices dtC9 [0, 1, 2]).map fun di => (cellAt rowC9a di).formattedValue)
        ≠ ((selDimensionIndices dtC9 [0, 1, 2]).map fun di => (cellAt rowC9b di).formattedValue)
    ∧ rowDimKey envModel (selDimensionIndices dtC9 [0, 1, 2]) rowC9a
        = rowDimKey envModel (selDimensionIndices dtC9 [0, 1, 2]) rowC9b
    ∧ filterColumns envModel dtC9 [0, 1, 2] ["A", "B", "Qty"] true none false
        = [[JSVal.str "A", JSVal.str "B", JSVal.str "Qty"],
           [JSVal.str "a|||b", JSVal.str "c", JSVal.num 3]]) := by
  intro env dt sel names ets inc
  have heq0 : filterColumns env dt sel names true ets inc
      = if (selDimensionIndices dt sel).length > 0 ∧ (selMeasureIndices dt sel).length > 0 then
          (names.map JSVal.str) ::
            (dt.data.foldl (fun acc r => if shouldSkipRow env dt inc r then acc
                else aggStep env (selDimensionIndices dt sel) (selMeasureIndices dt sel) acc r)
              []).map
              (fun p => buildAggRow env sel ets (selDimensionIndices dt sel)
                (selMeasureIndices dt sel) p.2)
        else
          (names.map JSVal.str) ::
            (dt.data.foldl (fun st r => if shouldSkipRow env dt inc r then st
                else distinctStep env sel ets st r) ([], [])).2 := rfl
  refine ⟨?_, ?_, by with_unfolding_all decide⟩
  · intro h1 h2
    rw [heq0, if_pos ⟨h1, h2⟩]
    rw [List.length_cons,
      foldl_skip_filter (shouldSkipRow env dt inc)
        (aggStep env (selDimensionIndices dt sel) (selMeasureIndices dt sel)),
      List.length_map,
      aggFold_length env (selDimensionIndices dt sel) (selMeasureIndices dt sel),
      countNew_toFinset_card]
    simp only [List.length_nil, List.map_nil, List.toFinset_nil, Finset.sdiff_empty]
    have : (dt.data.filter fun r => !shouldSkipRow env dt inc r) = survivingRows env dt inc := rfl
    rw [this]
    omega
  · intro hneg
    rw [heq0, if_neg hneg]
    rw [List.length_cons,
      foldl_skip_filter (shouldSkipRow env dt inc) (distinctStep env sel ets),
      distinctFold_length env sel ets,
      countNew_toFinset_card]
    simp only [List.length_nil, List.toFinset_nil, Finset.sdiff_empty]
    have : (dt.data.filter fun r => !shouldSkipRow env dt inc r) = survivingRows env dt inc := rfl
    rw [this]
    omega

/-- Witness for C9: on `dtC9` the grouping path emits one body row per
distinct joined key. -/
theorem filterColumns_join_key_spec_witness :
    (filterColumns envModel dtC9 [0, 1, 2] ["A", "B", "Qty"] true none false).length
      = 1 + ((survivingRows envModel dtC9 false).map
          (rowDimKey envModel (selDimensionIndices dtC9 [0, 1, 2]))).toFinset.card :=
  (filterColumns_join_key_spec envModel dtC9 [0, 1, 2] ["A", "B", "Qty"] none false).1
    (by with_unfolding_all decide) (by with_unfolding_all decide)

lemma keyLeB_refl : ∀ a : SortKey, keyLeB a a = true := by
  intro a
  cases a with
  | knum x => simp [keyLeB]
  | kstr s => simp [keyLeB]

lemma keyLeB_total : ∀ a b : SortKey, keyLeB a b = true ∨ keyLeB b a = true := by
  intro a b
  cases a with
  | knum x =>
    cases b with
    | knum y => simpa [keyLeB] using le_total x y
    | kstr t => simp [keyLeB]
  | kstr s =>
    cases b with
    | knum y => simp [keyLeB]
    | kstr t => simpa [keyLeB] using le_total s t

lemma keyLeB_trans : ∀ a b c : SortKey, keyLeB a b = true → keyLeB b c = true →
    keyLeB a c = true := by
  intro a b c hab hbc
  cases a <;> cases b <;> cases c <;> simp_all [keyLeB]
  · exact le_trans hab hbc
  · exact le_trans hab hbc

lemma rowLeB_total (env : JSEnv) (ty dir : String) (si : ℕ) :
    ∀ a b, rowLeB env ty dir si a b = true ∨ rowLeB env ty dir si b a = true := by
  intro a b
  unfold rowLeB
  by_cases hd : dir = "asc"
  · rw [if_pos hd, if_pos hd]
    exact keyLeB_total _ _
  · rw [if_neg hd, if_neg hd]
    exact keyLeB_total _ _

lemma rowLeB_trans (env : JSEnv) (ty dir : String) (si : ℕ) :
    ∀ a b c, rowLeB env ty dir si a b = true → rowLeB env ty dir si b c = true →
      rowLeB env ty dir si a c = true := by
  intro a b c
  unfold rowLeB
  by_cases hd : dir = "asc"
  · rw [if_pos hd, if_pos hd, if_pos hd]
    exact keyLeB_trans _ _ _
  · rw [if_neg hd, if_neg hd, if_neg hd]
    intro h1 h2
    exact keyLeB_trans _ _ _ h2 h1

lemma rowLeB_keyEq (env : JSEnv) (ty dir : String) (si : ℕ) :
    ∀ a b, keyAt env ty si a = keyAt env ty si b → rowLeB env ty dir si a b = true := by
  intro a b h
  unfold rowLeB
  split
  · rw [h]
    exact keyLeB_refl _
  · rw [h]
    exact keyLeB_refl _

lemma filter_orderedInsert {α : Type} (r : α → α → Prop) [DecidableRel r] (p : α → Bool)
    (hp : ∀ x y, p x = true → p y = true → r x y) (a : α) :
    ∀ L : List α, (L.orderedInsert r a).filter p
      = if p a then a :: L.filter p else L.filter p := by
  intro L
  induction L with
  | nil =>
    by_cases hpa : p a
    · simp [List.orderedInsert, List.filter_cons, hpa]
    · simp [List.orderedInsert, List.filter_cons, hpa]
  | cons b L ih =>
    simp only [List.orderedInsert]
    by_cases hr : r a b
    · rw [if_pos hr, List.filter_cons]
    · rw [if_neg hr, List.filter_cons]
      by_cases hpb : p b
      · rw [if_pos hpb, ih]
        by_cases hpa : p a
        · exact absurd (hp a b hpa hpb) hr
        · rw [if_neg hpa, if_neg hpa, List.filter_cons, if_pos hpb]
      · rw [if_neg hpb, ih]
        by_cases hpa : p a
        · rw [if_pos hpa, if_pos hpa, List.filter_cons, if_neg hpb]
        · rw [if_neg hpa, if_neg hpa, List.filter_cons, if_neg hpb]

lemma filter_insertionSort {α : Type} (r : α → α → Prop) [DecidableRel r] (p : α → Bool)
    (hp : ∀ x y, p x = true → p y = true → r x y) :
    ∀ L : List α, (L.insertionSort r).filter p = L.filter p := by
  intro L
  induction L with
  | nil => rfl
  | cons a L ih =>
    simp only [List.insertionSort]
    rw [filter_orderedInsert r p hp a, ih, List.filter_cons]

/-- Header of the sort example of the spec. -/
def sortHdr : List JSVal := [JSVal.str "Name", JSVal.str "Month"]

/-- Body rows of the sort example
`[["b","Feb-2023"],["a","Jan-2023"],["a","Mar-2023"]]`. -/
def sortRowsEx : List (List JSVal) :=
  [[JSVal.str "b", JSVal.str "Feb-2023"],
   [JSVal.str "a", JSVal.str "Jan-2023"],
   [JSVal.str "a", JSVal.str "Mar-2023"]]

/-- The chronologically sorted body rows of the example. -/
def sortRowsSorted : List (List JSVal) :=
  [[JSVal.str "a", JSVal.str "Jan-2023"],
   [JSVal.str "b", JSVal.str "Feb-2023"],
   [JSVal.str "a", JSVal.str "Mar-2023"]]

/-- C6: the sort stage is a no-op on matrices with at most one row or
without a valid column index; otherwise it keeps the header at
position 0, permutes exactly the body rows into an order sorted by the
type-aware comparator, and is stable (rows with any fixed sort key keep
their relative order); sorting the spec's example by the date column
ascending yields chronological order with rows intact. -/
theorem sortDataRows_spec : ∀ (env : JSEnv) (data : List (List JSVal)) (si : Option ℤ)
    (dir ty : String),
    (data.length ≤ 1 → sortDataRows env data si dir ty = data)
  ∧ sortDataRows env data none dir ty = data
  ∧ (∀ i : ℤ, i < 0 → sortDataRows env data (some i) dir ty = data)
  ∧ (∀ (i : ℤ) (hdr : List JSVal) (rest : List (List JSVal)), 0 ≤ i → data = hdr :: rest →
      (sortDataRows env data (some i) dir ty).head? = some hdr
    ∧ ((sortDataRows env data (some i) dir ty).drop 1).Perm rest
    ∧ List.Sorted (fun a b => rowLeB env ty dir i.toNat a b = true)
        ((sortDataRows env data (some i) dir ty).drop 1)
    ∧ ∀ k : SortKey,
        ((sortDataRows env data (some i) dir ty).drop 1).filter
            (fun row => decide (keyAt env ty i.toNat row = k))
          = rest.filter fun row => decide (keyAt env ty i.toNat row = k))
  ∧ sortDataRows envModel (sortHdr :: sortRowsEx) (some 1) "asc" "date"
      = sortHdr :: sortRowsSorted := by
  intro env data si dir ty
  refine ⟨?_, ?_, ?_, ?_, by with_unfolding_all decide⟩
  · intro h
    unfold sortDataRows
    rw [if_pos h]
  · unfold sortDataRows
    by_cases h : data.length ≤ 1
    · rw [if_pos h]
    · rw [if_neg h]
  · intro i hi
    unfold sortDataRows
    by_cases h : data.length ≤ 1
    · rw [if_pos h]
    · rw [if_neg h]
      show (if i < 0 then data else _) = data
      rw [if_pos hi]
  · intro i hdr rest h0 hd
    subst hd
    by_cases hr : rest = []
    · subst hr
      have h1 : sortDataRows env [hdr] (some i) dir ty = [hdr] := by
        unfold sortDataRows
        rw [if_pos (by simp)]
      rw [h1]
      exact ⟨rfl, by simp, by simp, fun k => rfl⟩
    · have hlen : ¬((hdr :: rest).length ≤ 1) := by
        have := List.length_pos.mpr hr
        simp only [List.length_cons]
        omega
      have hneg : ¬(i < 0) := not_lt.mpr h0
      have h1 : sortDataRows env (hdr :: rest) (some i) dir ty
          = hdr :: List.insertionSort (fun a b => rowLeB env ty dir i.toNat a b = true) rest := by
        unfold sortDataRows
        rw [if_neg hlen]
        show (if i < 0 then _ else _) = _
        rw [if_neg hneg]
      rw [h1]
      haveI i1 : IsTotal (List JSVal) (fun a b => rowLeB env ty dir i.toNat a b = true) :=
        ⟨rowLeB_total env ty dir i.toNat⟩
      haveI i2 : IsTrans (List JSVal) (fun a b => rowLeB env ty dir i.toNat a b = true) :=
        ⟨rowLeB_trans env ty dir i.toNat⟩
      refine ⟨rfl, ?_, ?_, ?_⟩
      · simpa using List.perm_insertionSort
          (fun a b => rowLeB env ty dir i.toNat a b = true) rest
      · simpa using List.sorted_insertionSort
          (fun a b => rowLeB env ty dir i.toNat a b = true) rest
      · intro k
        have hp : ∀ x y, decide (keyAt env ty i.toNat x = k) = true →
            decide (keyAt env ty i.toNat y = k) = true →
            rowLeB env ty dir i.toNat x y = true := by
          intro x y hx hy
          exact rowLeB_keyEq env ty dir i.toNat x y
            ((of_decide_eq_true hx).trans (of_decide_eq_true hy).symm)
        simpa using filter_insertionSort
          (fun a b => rowLeB env ty dir i.toNat a b = true)
          (fun row => decide (keyAt env ty i.toNat row = k)) hp rest

/-- Witness for C6 at the spec's example: header preserved and body a
permutation of the input rows. -/
theorem sortDataRows_spec_witness :
    (sortDataRows envModel (sortHdr :: sortRowsEx) (some 1) "asc" "date").head? = some sortHdr
  ∧ ((sortDataRows envModel (sortHdr :: sortRowsEx) (some 1) "asc" "date").drop 1).Perm
      sortRowsEx := by
  have h := (sortDataRows_spec envModel (sortHdr :: sortRowsEx) (some 1) "asc" "date").2.2.2.1 1
    sortHdr sortRowsEx (by decide) rfl
  exact ⟨h.1, h.2.1⟩
